import Mathlib

/-!
# Verification of the MDL `componentHandler` (src/mdlComponentHandler.js)

A shallow embedding of the component-handler core: the registry of component
descriptors, the per-element upgraded-state marker attribute, the single-element
upgrade algorithm, the document-wide upgrade passes, and the downgrade engine.

JS strings are Lean `String`s; JS `String.prototype.split(',')` and
`Array.prototype.join(',')` are modelled character-exactly (`jsSplit`/`jsJoin`),
including the JS behaviour that `"".split(',') == ['']`.  DOM elements are
modelled by an identity (`id`), their class list, and the `data-upgraded`
marker attribute (`none` when the attribute is absent, mirroring
`getAttribute` returning `null`).  Side effects (event dispatch, attribute
writes, widget-constructor invocations, upgrade callbacks) are recorded in an
explicit effect trace in the order the code performs them.
-/

set_option autoImplicit false

namespace MDL

/-- JS `String.prototype.split` with a one-character separator, at the
character-list level.  Splitting the empty list yields `[[]]`, matching
JS `"".split(',') == ['']`. -/
def splitCharList (sep : Char) : List Char → List (List Char)
  | [] => [[]]
  | c :: rest =>
    let r := splitCharList sep rest
    if c = sep then [] :: r
    else
      match r with
      | [] => [[c]]
      | h :: t => (c :: h) :: t

/-- JS `Array.prototype.join` with a one-character separator, at the
character-list level. -/
def joinCharList (sep : Char) : List (List Char) → List Char
  | [] => []
  | [x] => x
  | x :: rest => x ++ sep :: joinCharList sep rest

/-- JS `String.prototype.split` with a one-character separator. -/
def jsSplit (sep : Char) (s : String) : List String :=
  (splitCharList sep s.data).map String.mk

/-- JS `Array.prototype.join` with a one-character separator on an array of
strings. -/
def jsJoin (sep : Char) (l : List String) : String :=
  String.mk (joinCharList sep (l.map String.data))

/-- A DOM element as far as the component handler observes it: an identity
(JS object identity, used by `===` comparisons), its CSS class list, and the
`data-upgraded` marker attribute (`none` models an absent attribute, i.e.
`getAttribute` returning `null`). -/
structure Element where
  id : Nat
  classList : List String
  dataUpgraded : Option String
  deriving DecidableEq, Repr

/-- `util.componentHandler.ComponentConfig`: the registry entry built by
`componentHandler.register` — fields `classConstructor` (opaque factory,
not carried), `className`, `cssClass`, `widget`, `callbacks`.  Upgrade
callbacks are opaque functions; only how many are attached is observable
in the effect trace, so they are carried as a count. -/
structure ComponentConfig where
  className : String
  cssClass : String
  widget : Bool
  callbacks : Nat
  deriving DecidableEq, Repr

/-- JS property access `config.classAsString` on a `ComponentConfig` object.
The objects stored in the registry are built by `registerInternal` with
fields `classConstructor`, `className`, `cssClass`, `widget`, `callbacks`
only — there is no `classAsString` field, so the access evaluates to
`undefined` (modelled as `none`). -/
def ComponentConfig.classAsStringJS (_ : ComponentConfig) : Option String := none

/-- `util.componentHandler.ComponentConfigPublic`: the argument shape accepted
by `componentHandler.register`.  `widget = none` models an absent/`undefined`
`widget` property; `hasConfigProperty` models
`config.constructor.prototype.hasOwnProperty('mdlComponentConfigInternal_')`. -/
structure ComponentConfigPublic where
  classAsString : String
  cssClass : String
  widget : Option Bool
  hasConfigProperty : Bool
  deriving DecidableEq, Repr

/-- A created component instance as tracked in `createdComponents_`:
it remembers its backing element (`element_`, by identity) and the
registry entry stored on it under `mdlComponentConfigInternal_`. -/
structure Component where
  elemId : Nat
  config : ComponentConfig
  deriving DecidableEq, Repr

/-- One primitive observable effect, in program order. -/
inductive Effect where
  /-- `element.dispatchEvent` of an event created by `createEvent_`. -/
  | dispatch (elemId : Nat) (eventType : String) (bubbles cancelable : Bool)
  /-- `element.setAttribute(attrName, value)`. -/
  | setAttr (elemId : Nat) (attrName value : String)
  /-- `new registeredClass.classConstructor(element)`. -/
  | construct (elemId : Nat) (className : String)
  /-- invocation of `registeredClass.callbacks[k](element)`. -/
  | callback (elemId : Nat) (className : String) (k : Nat)
  /-- `element[registeredClass.className] = instance` (widget back-reference). -/
  | setWidgetRef (elemId : Nat) (className : String)
  deriving DecidableEq, Repr

/-- `findRegisteredClass_(name)` without the replace argument: linear scan of
the registry for the first entry whose `className` equals `name`; returns the
entry, or `false` (modelled `none`) when absent. -/
def findRegisteredClass_ (registry : List ComponentConfig) (name : String) :
    Option ComponentConfig :=
  registry.find? (fun c => c.className == name)

/-- `findRegisteredClass_(name, optReplace)` with the replace argument: the
first entry whose `className` equals `name` is overwritten in place with
`repl` and returned; when no entry matches, the registry is unchanged and
the call returns `false` (modelled `none`). -/
def findRegisteredClassReplace (registry : List ComponentConfig) (name : String)
    (repl : ComponentConfig) : List ComponentConfig × Option ComponentConfig :=
  match registry with
  | [] => ([], none)
  | c :: rest =>
    if c.className = name then (repl :: rest, some repl)
    else
      let r := findRegisteredClassReplace rest name repl
      (c :: r.1, r.2)

/-- `getUpgradedListOfElement_`: decode the `data-upgraded` marker attribute.
The source returns `['']` when the attribute is absent (`null`), "to conform
the `,name,name...` style", and `dataUpgraded.split(',')` otherwise. -/
def getUpgradedListOfElement_ (element : Element) : List String :=
  match element.dataUpgraded with
  | none => [""]
  | some s => jsSplit ',' s

/-- `isElementUpgraded_`: `upgradedList.indexOf(jsClass) !== -1`. -/
def isElementUpgraded_ (element : Element) (jsClass : String) : Bool :=
  (getUpgradedListOfElement_ element).contains jsClass

/-- `componentHandler.register`: builds the internal config (resolving
`widget` to `true` when unspecified), raises on a `cssClass` or `className`
collision with any existing entry (checked per entry in registry order,
`cssClass` first), raises when the factory already carries the internal
bookkeeping key, and otherwise runs the replace-capable lookup and appends
when nothing was replaced.  Returns the new registry, or the thrown error
message. -/
def register (registry : List ComponentConfig) (config : ComponentConfigPublic) :
    Except String (List ComponentConfig) :=
  let widget := match config.widget with
    | none => true
    | some b => b
  let newConfig : ComponentConfig :=
    { className := config.classAsString
      cssClass := config.cssClass
      widget := widget
      callbacks := 0 }
  match registry.find? (fun item =>
      item.cssClass == newConfig.cssClass || item.className == newConfig.className) with
  | some item =>
    if item.cssClass == newConfig.cssClass then
      .error ("The provided cssClass has already been registered: " ++ item.cssClass)
    else
      .error "The provided className has already been registered"
  | none =>
    if config.hasConfigProperty then
      .error "MDL component classes must not have mdlComponentConfigInternal_ defined as a property."
    else
      let r := findRegisteredClassReplace registry config.classAsString newConfig
      match r.2 with
      | some _ => .ok r.1
      | none => .ok (r.1 ++ [newConfig])

/-- Result of `upgradeElement` (and of its candidate loop): the element after
any marker-attribute writes, the instances pushed onto `createdComponents_`,
the effect trace, and the message of a thrown error if one occurred.  A thrown
error aborts the remaining work but earlier mutations persist (JS exceptions
roll nothing back). -/
structure UpgradeResult where
  element : Element
  created : List Component
  effects : List Effect
  error : Option String
  deriving DecidableEq, Repr

/-- The `registeredComponents_.forEach` scan in `upgradeElement` (the path
with no `optJsClass`): walk the registry in order, pushing each entry whose
`cssClass` the element's class list contains, that was not already pushed,
and whose `className` is not already applied to the element. -/
def scanAux (e : Element) (acc : List ComponentConfig) :
    List ComponentConfig → List ComponentConfig
  | [] => acc
  | c :: rest =>
    if c.cssClass ∈ e.classList ∧ c ∉ acc ∧ isElementUpgraded_ e c.className = false then
      scanAux e (acc ++ [c]) rest
    else
      scanAux e acc rest

/-- The full `classesToUpgrade` list computed by the implicit scan. -/
def scanCandidates (registry : List ComponentConfig) (e : Element) :
    List ComponentConfig :=
  scanAux e [] registry

/-- The effect block of one successful candidate iteration of the
`upgradeElement` loop, in source order: `setAttribute('data-upgraded', ...)`
(marking BEFORE construction), the constructor invocation, the registered
callbacks, the widget back-reference when `widget` is set, and the
non-cancelable `mdl-componentupgraded` dispatch. -/
def upgradeBlockEffs (eid : Nat) (joined : String) (c : ComponentConfig) : List Effect :=
  Effect.setAttr eid "data-upgraded" joined ::
  Effect.construct eid c.className ::
  ((List.range c.callbacks).map (fun k => Effect.callback eid c.className k) ++
   (if c.widget then [Effect.setWidgetRef eid c.className] else []) ++
   [Effect.dispatch eid "mdl-componentupgraded" true false])

/-- The `for` loop over `classesToUpgrade` in `upgradeElement`.  A `none`
entry is the `false` returned by `findRegisteredClass_` for an unresolved
name; reaching it throws `'Unable to find a registered component for the
given class.'`.  A `some` entry is processed by the `upgradeBlockEffs`
steps, with the marker list extended and the attribute rewritten before the
constructor runs. -/
def upgradeLoop (e : Element) (upgList : List String) :
    List (Option ComponentConfig) → UpgradeResult
  | [] => ⟨e, [], [], none⟩
  | none :: _ =>
    ⟨e, [], [], some "Unable to find a registered component for the given class."⟩
  | some c :: rest =>
    let upgList' := upgList ++ [c.className]
    let joined := jsJoin ',' upgList'
    let e' : Element := { e with dataUpgraded := some joined }
    let r := upgradeLoop e' upgList' rest
    ⟨r.element, ⟨e.id, c⟩ :: r.created, upgradeBlockEffs e.id joined c ++ r.effects, r.error⟩

/-- `componentHandler.upgradeElement(element, optJsClass)` for an argument
that is a valid `Element`.  It first dispatches the cancelable bubbling
`mdl-componentupgrading` event; `cancelUpgrading` says whether some listener
calls `preventDefault` on it, in which case the call returns with no further
work.  Otherwise the candidate list is computed — the full registry scan when
`optJsClass` is falsy (absent or the empty string, since the source tests
`!optJsClass`), else the single `findRegisteredClass_` lookup guarded by
`isElementUpgraded_` — and the candidate loop runs. -/
def upgradeElement (registry : List ComponentConfig) (e : Element)
    (optJsClass : Option String) (cancelUpgrading : Bool) : UpgradeResult :=
  let ev := Effect.dispatch e.id "mdl-componentupgrading" true true
  if cancelUpgrading then ⟨e, [], [ev], none⟩
  else
    let upgradedList := getUpgradedListOfElement_ e
    let classesToUpgrade : List (Option ComponentConfig) :=
      match optJsClass with
      | none => (scanCandidates registry e).map some
      | some "" => (scanCandidates registry e).map some
      | some name =>
        if isElementUpgraded_ e name then []
        else [findRegisteredClass_ registry name]
    let r := upgradeLoop e upgradedList classesToUpgrade
    ⟨r.element, r.created, ev :: r.effects, r.error⟩

/-- The selector-resolution-plus-query half of `upgradeDom` for given
arguments: when `optCssClass` is absent it is looked up via
`findRegisteredClass_(jsClass)` (which leaves it `undefined` when the name
is unknown); `document.querySelectorAll('.' + optCssClass)` concatenates
`undefined` into the literal class selector `.undefined`, so the queried
class is `"undefined"` in that case.  Returns the `upgradeElement`
invocations performed, as (element id, jsClass argument) pairs. -/
def upgradeDomOne (registry : List ComponentConfig) (doc : List Element)
    (jsClass : Option String) (optCssClass : Option String) :
    List (Nat × Option String) :=
  let css : Option String :=
    match optCssClass with
    | some s => some s
    | none => (jsClass.bind (fun n => findRegisteredClass_ registry n)).map (·.cssClass)
  let selClass := css.getD "undefined"
  (doc.filter (fun e => selClass ∈ e.classList)).map (fun e => (e.id, jsClass))

/-- `componentHandler.upgradeDom(optJsClass, optCssClass)`: with both
arguments `undefined` it recurses once per registered entry with that
entry's name and css class; otherwise it performs one resolution-and-query
pass.  Returns the `upgradeElement` invocations performed, in order. -/
def upgradeDom (registry : List ComponentConfig) (doc : List Element)
    (optJsClass optCssClass : Option String) : List (Nat × Option String) :=
  match optJsClass, optCssClass with
  | none, none =>
    registry.flatMap (fun c => upgradeDomOne registry doc (some c.className) (some c.cssClass))
  | oj, oc => upgradeDomOne registry doc oj oc

/-- `componentHandler.upgradeAllRegistered`: reverses `registeredComponents_`
in place, then calls `upgradeDom(registeredComponents_[n].className)` for
`n = 0, 1, ...` over the reversed array.  Returns the registry as left
behind (reversed) and the document-wide passes performed, each recorded as
the pass's class name together with the `upgradeElement` invocations of its
`upgradeDom` call against the initial document. -/
def upgradeAllRegistered (registry : List ComponentConfig) (doc : List Element) :
    List ComponentConfig × List (String × List (Nat × Option String)) :=
  let reversed := registry.reverse
  (reversed,
   reversed.map (fun c => (c.className, upgradeDom reversed doc (some c.className) none)))

/-- JS `Array.prototype.indexOf` (strict equality, first match, `-1` when
absent). -/
def jsIndexOf {α : Type} [BEq α] (l : List α) (x : α) : Int :=
  match l.findIdx? (fun y => y == x) with
  | some i => (i : Int)
  | none => -1

/-- JS `Array.prototype.indexOf` searching a string array for a value that
may be `undefined` (`none`): strict equality never relates `undefined` to a
string, so the search yields `-1` in that case. -/
def jsIndexOfOpt (l : List String) (x : Option String) : Int :=
  match x with
  | none => -1
  | some s => jsIndexOf l s

/-- JS `Array.prototype.splice(start, deleteCount)` restricted to its removal
behaviour: a negative `start` counts from the end (clamped at 0), an
over-long `start` is clamped to the length. -/
def jsSpliceRemove {α : Type} (l : List α) (start : Int) (count : Nat) : List α :=
  let s : Nat := if start < 0 then (l.length + start).toNat else min start.toNat l.length
  l.take s ++ l.drop (s + count)

/-- Result of the downgrade operations: ledger after removals, the node after
marker rewrites, the effect trace, and a thrown error message if any. -/
structure DowngradeResult where
  ledger : List Component
  element : Element
  effects : List Effect
  error : Option String
  deriving DecidableEq, Repr

/-- `deconstructComponentInternal(component)` for a non-null component whose
backing element is `el`: removes the component from `createdComponents_` via
`indexOf`/`splice`; re-reads the marker attribute (a `TypeError` is thrown
when it is absent, since `null.split` faults); looks up
`component.mdlComponentConfigInternal_.classAsString` — a field the stored
config does not have, so the lookup yields `undefined` and `indexOf` yields
`-1` — and `splice`s at that index, which removes the LAST entry; rewrites
the attribute and dispatches a non-cancelable `mdl-componentdowngraded`
event. -/
def deconstructComponentInternal (ledger : List Component) (el : Element)
    (component : Component) : DowngradeResult :=
  let componentIndex := jsIndexOf ledger component
  let ledger' := jsSpliceRemove ledger componentIndex 1
  match el.dataUpgraded with
  | none =>
    ⟨ledger', el, [], some "TypeError: null has no method split"⟩
  | some s =>
    let upgrades := jsSplit ',' s
    let componentPlace := jsIndexOfOpt upgrades component.config.classAsStringJS
    let upgrades' := jsSpliceRemove upgrades componentPlace 1
    let el' : Element := { el with dataUpgraded := some (jsJoin ',' upgrades') }
    ⟨ledger', el', [Effect.dispatch el.id "mdl-componentdowngraded" true false], none⟩

/-- The `forEach(deconstructComponentInternal)` over a snapshot of matching
ledger entries, threading the ledger and the node's state; a thrown error
propagates and stops the iteration. -/
def downgradeGo (ledger : List Component) (el : Element) :
    List Component → DowngradeResult
  | [] => ⟨ledger, el, [], none⟩
  | comp :: rest =>
    let r := deconstructComponentInternal ledger el comp
    match r.error with
    | some msg => ⟨r.ledger, r.element, r.effects, some msg⟩
    | none =>
      let r2 := downgradeGo r.ledger r.element rest
      ⟨r2.ledger, r2.element, r.effects ++ r2.effects, r2.error⟩

/-- The `downgradeNode` auxiliary inside `componentHandler.downgradeElements`:
filters `createdComponents_` for the instances whose `element_` is exactly
this node (object identity, modelled by `id`) and deconstructs each. -/
def downgradeNode (ledger : List Component) (el : Element) : DowngradeResult :=
  downgradeGo ledger el (ledger.filter (fun item => item.elemId == el.id))

/-- `componentHandler.downgradeElements(nodes)` on an array of nodes: applies
`downgradeNode` to each in order, threading the ledger; returns the ledger,
the nodes after their marker rewrites, the effect trace, and any thrown
error. -/
def downgradeElements (ledger : List Component) :
    List Element → List Component × List Element × List Effect × Option String
  | [] => (ledger, [], [], none)
  | el :: rest =>
    let r := downgradeNode ledger el
    match r.error with
    | some msg => (r.ledger, [r.element], r.effects, some msg)
    | none =>
      let (led, els, effs, err) := downgradeElements r.ledger rest
      (led, r.element :: els, r.effects ++ effs, err)

/-! ## Basic properties of the split/join codec -/

theorem splitCharList_ne_nil (sep : Char) (cs : List Char) :
    splitCharList sep cs ≠ [] := by
  induction cs with
  | nil => simp [splitCharList]
  | cons c rest ih =>
    simp only [splitCharList]
    split
    · simp
    · match h : splitCharList sep rest with
      | [] => simp
      | x :: t => simp

theorem splitCharList_cons_sep (sep : Char) (rest : List Char) :
    splitCharList sep (sep :: rest) = [] :: splitCharList sep rest := by
  simp [splitCharList]

theorem splitCharList_cons_ne (sep c : Char) (rest : List Char) (hc : c ≠ sep)
    {h : List Char} {t : List (List Char)} (hr : splitCharList sep rest = h :: t) :
    splitCharList sep (c :: rest) = (c :: h) :: t := by
  simp only [splitCharList, if_neg hc, hr]

theorem splitCharList_exists_cons (sep : Char) (cs : List Char) :
    ∃ h t, splitCharList sep cs = h :: t := by
  cases hsp : splitCharList sep cs with
  | nil => exact absurd hsp (splitCharList_ne_nil sep cs)
  | cons a b => exact ⟨a, b, rfl⟩

theorem splitCharList_sep_not_mem (sep : Char) (cs : List Char) :
    ∀ p ∈ splitCharList sep cs, sep ∉ p := by
  induction cs with
  | nil =>
    intro p hp
    simp [splitCharList] at hp
    subst hp
    simp
  | cons c rest ih =>
    intro p hp
    obtain ⟨h, t, hr⟩ := splitCharList_exists_cons sep rest
    by_cases hc : c = sep
    · subst hc
      rw [splitCharList_cons_sep] at hp
      rcases List.mem_cons.mp hp with rfl | hp
      · simp
      · exact ih p hp
    · rw [splitCharList_cons_ne sep c rest hc hr] at hp
      rcases List.mem_cons.mp hp with rfl | hp
      · intro hmem
        rcases List.mem_cons.mp hmem with h1 | h1
        · exact hc h1.symm
        · exact ih h (hr ▸ List.mem_cons_self h t) h1
      · exact ih p (hr ▸ List.mem_cons_of_mem h hp)

theorem splitCharList_of_not_mem (sep : Char) (cs : List Char) (h : sep ∉ cs) :
    splitCharList sep cs = [cs] := by
  induction cs with
  | nil => rfl
  | cons c rest ih =>
    have hc : c ≠ sep := fun hc => h (hc ▸ List.mem_cons_self c rest)
    have hrest : sep ∉ rest := fun hm => h (List.mem_cons_of_mem c hm)
    exact splitCharList_cons_ne sep c rest hc (ih hrest)

theorem splitCharList_append (sep : Char) (x ys : List Char) (hx : sep ∉ x)
    {h : List Char} {t : List (List Char)} (hs : splitCharList sep ys = h :: t) :
    splitCharList sep (x ++ ys) = (x ++ h) :: t := by
  induction x with
  | nil => simpa using hs
  | cons c x' ih =>
    have hc : c ≠ sep := fun hc => hx (hc ▸ List.mem_cons_self c x')
    have hx' : sep ∉ x' := fun hm => hx (List.mem_cons_of_mem c hm)
    rw [List.cons_append, splitCharList_cons_ne sep c (x' ++ ys) hc (ih hx'),
      List.cons_append]

theorem splitCharList_joinCharList (sep : Char) (L : List (List Char))
    (hne : L ≠ []) (h : ∀ l ∈ L, sep ∉ l) :
    splitCharList sep (joinCharList sep L) = L := by
  induction L with
  | nil => exact absurd rfl hne
  | cons x rest ih =>
    match rest with
    | [] =>
      simp only [joinCharList]
      exact splitCharList_of_not_mem sep x (h x (List.mem_cons_self x []))
    | y :: rest' =>
      have hx : sep ∉ x := h x (List.mem_cons_self x (y :: rest'))
      have hrec : splitCharList sep (joinCharList sep (y :: rest')) = y :: rest' :=
        ih (by simp) (fun l hl => h l (List.mem_cons_of_mem x hl))
      have hsplit : splitCharList sep (sep :: joinCharList sep (y :: rest')) =
          [] :: y :: rest' := by
        rw [splitCharList_cons_sep, hrec]
      have hjoin : joinCharList sep (x :: y :: rest') =
          x ++ sep :: joinCharList sep (y :: rest') := rfl
      rw [hjoin, splitCharList_append sep x _ hx hsplit, List.append_nil]

theorem string_mk_data (s : String) : String.mk s.data = s := rfl

theorem jsSplit_jsJoin (l : List String) (hne : l ≠ [])
    (h : ∀ s ∈ l, ',' ∉ s.data) :
    jsSplit ',' (jsJoin ',' l) = l := by
  unfold jsSplit jsJoin
  have hmapne : l.map String.data ≠ [] := by
    simpa using hne
  have hmem : ∀ p ∈ l.map String.data, ',' ∉ p := by
    intro p hp
    rcases List.mem_map.mp hp with ⟨s, hs, rfl⟩
    exact h s hs
  rw [show (String.mk (joinCharList ',' (l.map String.data))).data
        = joinCharList ',' (l.map String.data) from rfl,
      splitCharList_joinCharList ',' _ hmapne hmem,
      List.map_map]
  have hid : (String.mk ∘ String.data) = (id : String → String) := by
    funext s
    rfl
  rw [hid, List.map_id]

/-! ## Properties of the marker-attribute decoder -/

theorem getUpgradedListOfElement_ne_nil (e : Element) :
    getUpgradedListOfElement_ e ≠ [] := by
  unfold getUpgradedListOfElement_
  match e.dataUpgraded with
  | none => simp
  | some s =>
    simp only [jsSplit]
    intro hcon
    exact splitCharList_ne_nil ',' s.data (by simpa using hcon)

theorem getUpgradedListOfElement_no_comma (e : Element) :
    ∀ s ∈ getUpgradedListOfElement_ e, ',' ∉ s.data := by
  unfold getUpgradedListOfElement_
  match e.dataUpgraded with
  | none =>
    intro s hs
    simp at hs
    subst hs
    simp [String.data]
  | some str =>
    intro s hs
    simp only [jsSplit] at hs
    rcases List.mem_map.mp hs with ⟨p, hp, rfl⟩
    exact splitCharList_sep_not_mem ',' str.data p hp

theorem isElementUpgraded_iff (e : Element) (n : String) :
    isElementUpgraded_ e n = true ↔ n ∈ getUpgradedListOfElement_ e := by
  simp [isElementUpgraded_, List.contains]

/-! ## Properties of the registry scan in `upgradeElement` -/

theorem scanAux_mono (e : Element) :
    ∀ (reg acc : List ComponentConfig), acc ⊆ scanAux e acc reg := by
  intro reg
  induction reg with
  | nil => intro acc; simp [scanAux]
  | cons c rest ih =>
    intro acc
    simp only [scanAux]
    split
    · exact fun x hx => ih (acc ++ [c]) (List.mem_append_left [c] hx)
    · exact ih acc

theorem scanAux_sound (e : Element) :
    ∀ (reg acc : List ComponentConfig) (d : ComponentConfig),
      d ∈ scanAux e acc reg →
      d ∈ acc ∨ (d.cssClass ∈ e.classList ∧ isElementUpgraded_ e d.className = false) := by
  intro reg
  induction reg with
  | nil => intro acc d hd; exact Or.inl (by simpa [scanAux] using hd)
  | cons c rest ih =>
    intro acc d hd
    simp only [scanAux] at hd
    by_cases hcond : c.cssClass ∈ e.classList ∧ c ∉ acc ∧ isElementUpgraded_ e c.className = false
    · rw [if_pos hcond] at hd
      rcases ih (acc ++ [c]) d hd with hmem | hgood
      · rcases List.mem_append.mp hmem with h1 | h1
        · exact Or.inl h1
        · simp at h1
          subst h1
          exact Or.inr ⟨hcond.1, hcond.2.2⟩
      · exact Or.inr hgood
    · rw [if_neg hcond] at hd
      exact ih acc d hd

theorem scanAux_complete (e : Element) :
    ∀ (reg acc : List ComponentConfig) (c : ComponentConfig),
      c ∈ reg → c.cssClass ∈ e.classList → isElementUpgraded_ e c.className = false →
      c ∈ scanAux e acc reg := by
  intro reg
  induction reg with
  | nil => intro acc c hc; exact absurd hc (List.not_mem_nil c)
  | cons d rest ih =>
    intro acc c hc hcss hupg
    rcases List.mem_cons.mp hc with rfl | hc
    · simp only [scanAux]
      by_cases hcond : c.cssClass ∈ e.classList ∧ c ∉ acc ∧ isElementUpgraded_ e c.className = false
      · rw [if_pos hcond]
        exact scanAux_mono e rest (acc ++ [c]) (List.mem_append_right acc (by simp))
      · rw [if_neg hcond]
        have hmem : c ∈ acc := by
          by_contra hna
          exact hcond ⟨hcss, hna, hupg⟩
        exact scanAux_mono e rest acc hmem
    · simp only [scanAux]
      split
      · exact ih (acc ++ [d]) c hc hcss hupg
      · exact ih acc c hc hcss hupg

theorem scanAux_sublist (e : Element) :
    ∀ (reg acc : List ComponentConfig), List.Sublist (scanAux e acc reg) (acc ++ reg) := by
  intro reg
  induction reg with
  | nil => intro acc; simp [scanAux]
  | cons c rest ih =>
    intro acc
    simp only [scanAux]
    split
    · have h1 : List.Sublist (scanAux e (acc ++ [c]) rest) ((acc ++ [c]) ++ rest) := ih (acc ++ [c])
      simpa using h1
    · have h1 : List.Sublist (scanAux e acc rest) (acc ++ rest) := ih acc
      exact h1.trans (List.Sublist.append_left (List.sublist_cons_self c rest) acc)

theorem scanAux_all_upgraded (e : Element) :
    ∀ (reg acc : List ComponentConfig),
      (∀ c ∈ reg, c.cssClass ∈ e.classList → isElementUpgraded_ e c.className = true) →
      scanAux e acc reg = acc := by
  intro reg
  induction reg with
  | nil => intro acc _; rfl
  | cons c rest ih =>
    intro acc hall
    have hc : ¬(c.cssClass ∈ e.classList ∧ c ∉ acc ∧ isElementUpgraded_ e c.className = false) := by
      rintro ⟨hcss, -, hupg⟩
      rw [hall c (List.mem_cons_self c rest) hcss] at hupg
      simp at hupg
    simp only [scanAux, if_neg hc]
    exact ih acc (fun d hd => hall d (List.mem_cons_of_mem c hd))

/-! ## Closed forms of the candidate loop when every candidate resolved -/

theorem upgradeLoop_some_error (cs : List ComponentConfig) :
    ∀ (e : Element) (l : List String),
      (upgradeLoop e l (cs.map some)).error = none := by
  induction cs with
  | nil => intro e l; rfl
  | cons c rest ih =>
    intro e l
    simp only [List.map_cons, upgradeLoop]
    exact ih _ _

theorem upgradeLoop_some_created (cs : List ComponentConfig) :
    ∀ (e : Element) (l : List String),
      (upgradeLoop e l (cs.map some)).created = cs.map (fun c => Component.mk e.id c) := by
  induction cs with
  | nil => intro e l; rfl
  | cons c rest ih =>
    intro e l
    simp only [List.map_cons, upgradeLoop]
    rw [ih]

theorem upgradeLoop_some_element (cs : List ComponentConfig) :
    ∀ (e : Element) (l : List String),
      (upgradeLoop e l (cs.map some)).element =
        (if cs = [] then e
         else { e with dataUpgraded := some (jsJoin ',' (l ++ cs.map ComponentConfig.className)) }) := by
  induction cs with
  | nil => intro e l; rfl
  | cons c rest ih =>
    intro e l
    simp only [List.map_cons, upgradeLoop]
    rw [ih]
    cases rest with
    | nil => simp
    | cons d rest2 =>
      rw [if_neg (by simp), if_neg (by simp)]
      simp [List.append_assoc]

theorem upgradeLoop_cons_some_effects (e : Element) (l : List String)
    (c₀ : ComponentConfig) (cands : List (Option ComponentConfig)) :
    (upgradeLoop e l (some c₀ :: cands)).effects =
      upgradeBlockEffs e.id (jsJoin ',' (l ++ [c₀.className])) c₀ ++
      (upgradeLoop { e with dataUpgraded := some (jsJoin ',' (l ++ [c₀.className])) }
        (l ++ [c₀.className]) cands).effects := rfl

theorem upgradeBlockEffs_construct (eid : Nat) (j : String) (c : ComponentConfig)
    (i eid2 : Nat) (cn : String)
    (h : (upgradeBlockEffs eid j c)[i]? = some (Effect.construct eid2 cn)) :
    i = 1 ∧ eid2 = eid ∧ cn = c.className := by
  match i with
  | 0 => simp [upgradeBlockEffs] at h
  | 1 =>
    simp only [upgradeBlockEffs, List.getElem?_cons_succ, List.getElem?_cons_zero,
      Option.some.injEq, Effect.construct.injEq] at h
    exact ⟨rfl, h.1.symm, h.2.symm⟩
  | (n + 2) =>
    simp only [upgradeBlockEffs, List.getElem?_cons_succ] at h
    have hm := List.getElem?_mem h
    by_cases hw : c.widget <;> simp [hw] at hm

theorem upgradeBlockEffs_getElem_zero (eid : Nat) (j : String) (c : ComponentConfig) :
    (upgradeBlockEffs eid j c)[0]? = some (Effect.setAttr eid "data-upgraded" j) := rfl

theorem upgradeBlockEffs_length_pos (eid : Nat) (j : String) (c : ComponentConfig) :
    0 < (upgradeBlockEffs eid j c).length := by
  simp [upgradeBlockEffs]

theorem upgradeLoop_some_effects_shape (cs : List ComponentConfig) (e : Element)
    (l : List String) :
    (upgradeLoop e l (cs.map some)).effects = [] ∨
    ∃ v rest2, (upgradeLoop e l (cs.map some)).effects =
      Effect.setAttr e.id "data-upgraded" v :: rest2 := by
  cases cs with
  | nil => exact Or.inl rfl
  | cons c rest =>
    refine Or.inr ⟨jsJoin ',' (l ++ [c.className]), ?_, ?_⟩
    · exact ((upgradeBlockEffs e.id (jsJoin ',' (l ++ [c.className])) c).tail ++
        (upgradeLoop { e with dataUpgraded := some (jsJoin ',' (l ++ [c.className])) }
          (l ++ [c.className]) (rest.map some)).effects)
    · rw [List.map_cons, upgradeLoop_cons_some_effects]
      rfl

/-- In the effect trace of the all-resolved candidate loop, every constructor
invocation for a class name is immediately preceded by the marker-attribute
write that records that very name (appended last): marking happens before
construction. -/
theorem upgradeLoop_construct_preceded (cs : List ComponentConfig) :
    ∀ (e : Element) (l : List String) (i : Nat) (c : String),
      (upgradeLoop e l (cs.map some)).effects[i]? = some (Effect.construct e.id c) →
      ∃ l2, (upgradeLoop e l (cs.map some)).effects[i-1]? =
        some (Effect.setAttr e.id "data-upgraded" (jsJoin ',' (l2 ++ [c]))) := by
  induction cs with
  | nil =>
    intro e l i c h
    simp [upgradeLoop] at h
  | cons c₀ rest ih =>
    intro e l i c h
    rw [List.map_cons, upgradeLoop_cons_some_effects] at h
    rw [List.map_cons, upgradeLoop_cons_some_effects]
    rw [List.getElem?_append] at h
    by_cases hi : i < (upgradeBlockEffs e.id (jsJoin ',' (l ++ [c₀.className])) c₀).length
    · rw [if_pos hi] at h
      obtain ⟨h1, -, h3⟩ := upgradeBlockEffs_construct _ _ _ _ _ _ h
      subst h1
      subst h3
      refine ⟨l, ?_⟩
      rw [List.getElem?_append]
      rw [if_pos (show 1 - 1 < (upgradeBlockEffs e.id
        (jsJoin ',' (l ++ [c₀.className])) c₀).length by simp [upgradeBlockEffs])]
      exact upgradeBlockEffs_getElem_zero _ _ _
    · rw [if_neg hi] at h
      have hlen : (upgradeBlockEffs e.id (jsJoin ',' (l ++ [c₀.className])) c₀).length ≤ i :=
        Nat.le_of_not_lt hi
      by_cases hzero :
          i - (upgradeBlockEffs e.id (jsJoin ',' (l ++ [c₀.className])) c₀).length = 0
      · rw [hzero] at h
        rcases upgradeLoop_some_effects_shape rest
            { e with dataUpgraded := some (jsJoin ',' (l ++ [c₀.className])) }
            (l ++ [c₀.className]) with hsh | ⟨v, rest2, hsh⟩
        · rw [hsh] at h
          simp at h
        · rw [hsh] at h
          simp at h
      · obtain ⟨l2, hl2⟩ := ih { e with dataUpgraded := some (jsJoin ',' (l ++ [c₀.className])) }
          (l ++ [c₀.className])
          (i - (upgradeBlockEffs e.id (jsJoin ',' (l ++ [c₀.className])) c₀).length) c h
        refine ⟨l2, ?_⟩
        rw [List.getElem?_append]
        rw [if_neg (by omega)]
        have harith : i - 1 - (upgradeBlockEffs e.id (jsJoin ',' (l ++ [c₀.className])) c₀).length
            = i - (upgradeBlockEffs e.id (jsJoin ',' (l ++ [c₀.className])) c₀).length - 1 := by
          omega
        rw [harith]
        exact hl2

/-! ## Unfolding equations and registration facts -/

theorem upgradeElement_named_spec (registry : List ComponentConfig) (e : Element)
    (name : String) (hname : name ≠ "") :
    upgradeElement registry e (some name) false =
      (let r := upgradeLoop e (getUpgradedListOfElement_ e)
          (if isElementUpgraded_ e name then [] else [findRegisteredClass_ registry name])
       ⟨r.element, r.created,
        Effect.dispatch e.id "mdl-componentupgrading" true true :: r.effects, r.error⟩) := by
  unfold upgradeElement
  simp only [if_neg Bool.false_ne_true]

theorem register_eq_def (registry : List ComponentConfig) (config : ComponentConfigPublic) :
    register registry config =
      (match registry.find? (fun item =>
          item.cssClass == config.cssClass || item.className == config.classAsString) with
       | some item =>
         if item.cssClass == config.cssClass then
           .error ("The provided cssClass has already been registered: " ++ item.cssClass)
         else
           .error "The provided className has already been registered"
       | none =>
         if config.hasConfigProperty then
           .error "MDL component classes must not have mdlComponentConfigInternal_ defined as a property."
         else
           match (findRegisteredClassReplace registry config.classAsString
               ⟨config.classAsString, config.cssClass,
                (match config.widget with | none => true | some b => b), 0⟩).2 with
           | some _ => .ok (findRegisteredClassReplace registry config.classAsString
               ⟨config.classAsString, config.cssClass,
                (match config.widget with | none => true | some b => b), 0⟩).1
           | none => .ok ((findRegisteredClassReplace registry config.classAsString
               ⟨config.classAsString, config.cssClass,
                (match config.widget with | none => true | some b => b), 0⟩).1 ++
               [⟨config.classAsString, config.cssClass,
                 (match config.widget with | none => true | some b => b), 0⟩])) := rfl

theorem findRegisteredClassReplace_not_found (registry : List ComponentConfig)
    (name : String) (repl : ComponentConfig)
    (h : ∀ c ∈ registry, c.className ≠ name) :
    findRegisteredClassReplace registry name repl = (registry, none) := by
  induction registry with
  | nil => rfl
  | cons c rest ih =>
    have hc : c.className ≠ name := h c (List.mem_cons_self c rest)
    simp only [findRegisteredClassReplace, if_neg hc,
      ih (fun d hd => h d (List.mem_cons_of_mem c hd))]

theorem register_ok_shape (registry : List ComponentConfig)
    (config : ComponentConfigPublic) (r : List ComponentConfig)
    (h : register registry config = .ok r) :
    (∀ item ∈ registry, item.cssClass ≠ config.cssClass
       ∧ item.className ≠ config.classAsString)
    ∧ r = registry ++ [⟨config.classAsString, config.cssClass,
        (match config.widget with | none => true | some b => b), 0⟩] := by
  rw [register_eq_def] at h
  obtain hfind | ⟨it, hfind⟩ := Option.eq_none_or_eq_some (registry.find? (fun item =>
      item.cssClass == config.cssClass || item.className == config.classAsString))
  · simp only [hfind] at h
    rw [List.find?_eq_none] at hfind
    have hprops : ∀ item ∈ registry, item.cssClass ≠ config.cssClass
        ∧ item.className ≠ config.classAsString := by
      intro item hm
      have h2 := hfind item hm
      simp only [Bool.or_eq_true, beq_iff_eq, not_or] at h2
      exact h2
    split at h
    · simp at h
    · rw [findRegisteredClassReplace_not_found registry _ _
        (fun item hm => (hprops item hm).2)] at h
      simp only [Except.ok.injEq] at h
      exact ⟨hprops, h.symm⟩
  · simp only [hfind] at h
    split at h <;> simp at h

/-! ## The implicit-scan path of `upgradeElement` -/

theorem upgradeElement_scan_eq (registry : List ComponentConfig) (e : Element) :
    upgradeElement registry e none false =
      ⟨(upgradeLoop e (getUpgradedListOfElement_ e)
          ((scanCandidates registry e).map some)).element,
       (upgradeLoop e (getUpgradedListOfElement_ e)
          ((scanCandidates registry e).map some)).created,
       Effect.dispatch e.id "mdl-componentupgrading" true true ::
         (upgradeLoop e (getUpgradedListOfElement_ e)
            ((scanCandidates registry e).map some)).effects,
       (upgradeLoop e (getUpgradedListOfElement_ e)
          ((scanCandidates registry e).map some)).error⟩ := rfl

theorem upgradeElement_empty_name_eq (registry : List ComponentConfig) (e : Element) :
    upgradeElement registry e (some "") false = upgradeElement registry e none false := rfl

theorem scanCandidates_subset (registry : List ComponentConfig) (e : Element) :
    ∀ c ∈ scanCandidates registry e, c ∈ registry := by
  intro c hc
  have hs := scanAux_sublist e registry []
  simp only [List.nil_append] at hs
  exact hs.subset hc

theorem scanCandidates_names_nodup (registry : List ComponentConfig) (e : Element)
    (hreg : (registry.map ComponentConfig.className).Nodup) :
    ((scanCandidates registry e).map ComponentConfig.className).Nodup := by
  have hs := scanAux_sublist e registry []
  simp only [List.nil_append] at hs
  exact List.Nodup.sublist (hs.map ComponentConfig.className) hreg

theorem scanCandidates_names_not_applied (registry : List ComponentConfig) (e : Element) :
    ∀ n ∈ (scanCandidates registry e).map ComponentConfig.className,
      n ∉ getUpgradedListOfElement_ e := by
  intro n hn hmem
  obtain ⟨c, hc, rfl⟩ := List.mem_map.mp hn
  rcases scanAux_sound e registry [] c hc with h | ⟨-, hupg⟩
  · exact absurd h (List.not_mem_nil c)
  · rw [← isElementUpgraded_iff] at hmem
    rw [hupg] at hmem
    simp at hmem

theorem upgradeElement_scan_element_classList (registry : List ComponentConfig)
    (e : Element) :
    (upgradeElement registry e none false).element.classList = e.classList
    ∧ (upgradeElement registry e none false).element.id = e.id := by
  rw [upgradeElement_scan_eq]
  rw [upgradeLoop_some_element]
  split <;> exact ⟨rfl, rfl⟩

/-- Decoding the marker attribute after an implicit-scan `upgradeElement`
yields the old decoded list followed by the class names of the candidates the
scan collected, in order. -/
theorem upgradeElement_scan_element_decode (registry : List ComponentConfig)
    (e : Element) (hregc : ∀ c ∈ registry, ',' ∉ c.className.data) :
    getUpgradedListOfElement_ (upgradeElement registry e none false).element =
      getUpgradedListOfElement_ e ++
        (scanCandidates registry e).map ComponentConfig.className := by
  rw [upgradeElement_scan_eq]
  rw [upgradeLoop_some_element]
  by_cases hcs : scanCandidates registry e = []
  · rw [if_pos hcs, hcs]
    simp
  · rw [if_neg hcs]
    have hdec : getUpgradedListOfElement_
        { e with dataUpgraded := some (jsJoin ','
            (getUpgradedListOfElement_ e ++
             (scanCandidates registry e).map ComponentConfig.className)) } =
        jsSplit ',' (jsJoin ','
          (getUpgradedListOfElement_ e ++
           (scanCandidates registry e).map ComponentConfig.className)) := rfl
    rw [hdec]
    apply jsSplit_jsJoin
    · intro hcon
      exact getUpgradedListOfElement_ne_nil e (List.append_eq_nil.mp hcon).1
    · intro s hs
      rcases List.mem_append.mp hs with h1 | h1
      · exact getUpgradedListOfElement_no_comma e s h1
      · obtain ⟨c, hc, rfl⟩ := List.mem_map.mp h1
        exact hregc c (scanCandidates_subset registry e c hc)

theorem upgradeElement_scan_nodup (registry : List ComponentConfig) (e : Element)
    (hreg : (registry.map ComponentConfig.className).Nodup)
    (hregc : ∀ c ∈ registry, ',' ∉ c.className.data)
    (he : (getUpgradedListOfElement_ e).Nodup) :
    (getUpgradedListOfElement_ (upgradeElement registry e none false).element).Nodup := by
  rw [upgradeElement_scan_element_decode registry e hregc]
  refine List.Nodup.append he (scanCandidates_names_nodup registry e hreg) ?_
  intro a ha hn
  exact scanCandidates_names_not_applied registry e a hn ha

/-- After an implicit-scan `upgradeElement`, a second implicit scan finds no
candidate: every registry entry whose css class the element carries is now
recorded as applied. -/
theorem upgradeElement_scan_twice_empty (registry : List ComponentConfig)
    (e : Element) (hregc : ∀ c ∈ registry, ',' ∉ c.className.data) :
    scanCandidates registry (upgradeElement registry e none false).element = [] := by
  apply scanAux_all_upgraded
  intro c hc hcss
  rw [isElementUpgraded_iff, upgradeElement_scan_element_decode registry e hregc]
  rw [(upgradeElement_scan_element_classList registry e).1] at hcss
  cases hb : isElementUpgraded_ e c.className with
  | false =>
    have hin : c ∈ scanCandidates registry e := scanAux_complete e registry [] c hc hcss hb
    exact List.mem_append_right _ (List.mem_map_of_mem ComponentConfig.className hin)
  | true =>
    exact List.mem_append_left _ ((isElementUpgraded_iff e c.className).mp hb)

/-! ## Claim theorems -/

/-- C1, counterexample.  The claim says `getUpgradedListOfElement_` returns an
empty list for an element with no marker attribute, distinct from the result
for an empty-string marker attribute.  On the code, the absent-attribute
result is `[""]` — not empty — and it coincides with the empty-string-attribute
result, since `''.split(',')` is also `['']`. -/
theorem getUpgradedList_absent_counterexample :
    getUpgradedListOfElement_ ⟨0, [], none⟩ = [""]
    ∧ getUpgradedListOfElement_ ⟨0, [], none⟩ ≠ ([] : List String)
    ∧ getUpgradedListOfElement_ ⟨0, [], none⟩ = getUpgradedListOfElement_ ⟨0, [], some ""⟩ := by
  refine ⟨rfl, ?_, rfl⟩
  decide

/-- C1, amended.  `getUpgradedListOfElement_` on an element with no marker
attribute returns `[""]` (a one-element list containing the empty string),
which is identical to — not distinct from — the result for an element whose
marker attribute is present but equal to the empty string. -/
theorem getUpgradedList_absent_eq_empty_attr (e e2 : Element)
    (h : e.dataUpgraded = none) (h2 : e2.dataUpgraded = some "") :
    getUpgradedListOfElement_ e = [""]
    ∧ getUpgradedListOfElement_ e = getUpgradedListOfElement_ e2 := by
  unfold getUpgradedListOfElement_
  rw [h, h2]
  exact ⟨rfl, rfl⟩

/-- C1, witness for the amended theorem. -/
theorem getUpgradedList_absent_eq_empty_attr_witness :
    (⟨0, [], none⟩ : Element).dataUpgraded = none
    ∧ (⟨1, [], some ""⟩ : Element).dataUpgraded = some ""
    ∧ (getUpgradedListOfElement_ ⟨0, [], none⟩ = [""]
       ∧ getUpgradedListOfElement_ ⟨0, [], none⟩ = getUpgradedListOfElement_ ⟨1, [], some ""⟩) :=
  ⟨rfl, rfl, getUpgradedList_absent_eq_empty_attr _ _ rfl rfl⟩

/-- C5.  If a listener cancels the `mdl-componentupgrading` event, the call
returns silently: the element (in particular its marker attribute) is
unchanged, no instance is constructed or added to the ledger, the only
dispatched event is the upgrading event itself (so no `mdl-componentupgraded`
event fires), and no error is raised. -/
theorem upgradeElement_canceled_no_effect (registry : List ComponentConfig)
    (e : Element) (optJsClass : Option String) :
    upgradeElement registry e optJsClass true =
      ⟨e, [], [Effect.dispatch e.id "mdl-componentupgrading" true true], none⟩ := rfl

/-- C10.  On every call with a valid element — whatever the registry, the
optional name, and whether a listener will cancel — the effect trace of
`upgradeElement` begins with the dispatch of the cancelable bubbling
`mdl-componentupgrading` event: every marker-attribute write and every ledger
push strictly follows that dispatch. -/
theorem upgradeElement_dispatches_upgrading_first (registry : List ComponentConfig)
    (e : Element) (optJsClass : Option String) (cancel : Bool) :
    ∃ rest, (upgradeElement registry e optJsClass cancel).effects =
      Effect.dispatch e.id "mdl-componentupgrading" true true :: rest := by
  cases cancel with
  | true => exact ⟨[], rfl⟩
  | false => exact ⟨_, rfl⟩

/-- C8, counterexample.  In the spec scenario (descriptor named `"Check"`
with selector `js-check`, element of class `js-check` with no marker
attribute), the marker attribute after `upgradeElement` is `",Check"` — the
initial decode of the absent attribute is `[""]` and the join re-emits the
leading empty entry — not `"Check"` as the claim states. -/
theorem upgradeElement_scenario_marker_counterexample :
    (upgradeElement [⟨"Check", "js-check", true, 0⟩] ⟨0, ["js-check"], none⟩
        none false).element.dataUpgraded = some ",Check"
    ∧ (upgradeElement [⟨"Check", "js-check", true, 0⟩] ⟨0, ["js-check"], none⟩
        none false).element.dataUpgraded ≠ some "Check" := by
  refine ⟨rfl, ?_⟩
  decide

/-- C8, amended.  In the spec scenario the marker attribute becomes
`",Check"` (comma-joined list with the leading empty entry preserved), exactly
one ledger instance referencing the element is created, and exactly one
`mdl-componentupgraded` event fires. -/
theorem upgradeElement_scenario_check :
    upgradeElement [⟨"Check", "js-check", true, 0⟩] ⟨0, ["js-check"], none⟩ none false =
      ⟨⟨0, ["js-check"], some ",Check"⟩,
       [⟨0, ⟨"Check", "js-check", true, 0⟩⟩],
       [Effect.dispatch 0 "mdl-componentupgrading" true true,
        Effect.setAttr 0 "data-upgraded" ",Check",
        Effect.construct 0 "Check",
        Effect.setWidgetRef 0 "Check",
        Effect.dispatch 0 "mdl-componentupgraded" true false],
       none⟩ := by
  decide

/-- C3.  Failing input for the downgrade bookkeeping: the ledger holds one
instance (component `"A"`) backed by element 0 whose marker attribute is
`",A,B"`.  `downgradeElements` does tear the instance down (ledger empties,
one non-cancelable `mdl-componentdowngraded` event fires), but the marker is
rewritten to `",A"` — the LAST entry `"B"` is removed, not the name `"A"` the
instance represents — because `deconstructComponentInternal` reads
`classAsString` off the stored config, which only has `className`, so
`indexOf(undefined)` yields `-1` and `splice(-1, 1)` drops the last entry.
The claim (and the spec) says the result would be `",B"`. -/
theorem downgrade_removes_last_name_bug :
    downgradeElements [⟨0, ⟨"A", "css-a", true, 0⟩⟩] [⟨0, ["css-a", "css-b"], some ",A,B"⟩] =
      ([], [⟨0, ["css-a", "css-b"], some ",A"⟩],
       [Effect.dispatch 0 "mdl-componentdowngraded" true false], none)
    ∧ (downgradeElements [⟨0, ⟨"A", "css-a", true, 0⟩⟩]
        [⟨0, ["css-a", "css-b"], some ",A,B"⟩]).2.1 ≠
        [⟨0, ["css-a", "css-b"], some ",B"⟩] := by
  refine ⟨?_, ?_⟩ <;> decide

/-- C4, counterexample.  Registering a descriptor whose name `"A"` is already
registered (with a distinct `cssClass`, so the name check is the one that
fires) raises `'The provided className has already been registered'` instead
of replacing the prior descriptor in place: the replace branch of
`findRegisteredClass_` is unreachable from `register`. -/
theorem register_duplicate_name_counterexample :
    register [⟨"A", "css-a", true, 0⟩] ⟨"A", "css-a2", none, false⟩ =
      .error "The provided className has already been registered" := rfl

/-- C6, counterexample.  The name `""` was never registered and is not in the
element's marker list (`["A"]`), yet `upgradeElement(el, "")` raises no error:
the source's `!optJsClass` test treats the empty string as falsy and takes the
implicit-scan path, which here finds nothing to do and returns silently. -/
theorem upgradeElement_empty_name_counterexample :
    ("" ∈ getUpgradedListOfElement_ ⟨0, ["css-a"], some "A"⟩) = False
    ∧ upgradeElement [⟨"A", "css-a", true, 0⟩] ⟨0, ["css-a"], some "A"⟩ (some "") false =
      ⟨⟨0, ["css-a"], some "A"⟩, [],
       [Effect.dispatch 0 "mdl-componentupgrading" true true], none⟩ := by
  refine ⟨?_, ?_⟩ <;> decide

/-- C6, amended.  For every NONEMPTY name that was never registered and is
not already in the element's marker list, `upgradeElement(el, name)` throws
`'Unable to find a registered component for the given class.'` and leaves the
element (marker attribute included) unchanged, pushes nothing onto the
ledger, and dispatches only the upgrading event. -/
theorem upgradeElement_unknown_name_raises (registry : List ComponentConfig)
    (e : Element) (name : String) (hname : name ≠ "")
    (hreg : ∀ c ∈ registry, c.className ≠ name)
    (hupg : isElementUpgraded_ e name = false) :
    upgradeElement registry e (some name) false =
      ⟨e, [], [Effect.dispatch e.id "mdl-componentupgrading" true true],
       some "Unable to find a registered component for the given class."⟩ := by
  have hfind : findRegisteredClass_ registry name = none := by
    unfold findRegisteredClass_
    rw [List.find?_eq_none]
    intro c hc
    simpa using hreg c hc
  rw [upgradeElement_named_spec registry e name hname]
  simp [hupg, hfind, upgradeLoop]

/-- C6, witness for the amended theorem. -/
theorem upgradeElement_unknown_name_raises_witness :
    ("Missing" : String) ≠ ""
    ∧ (∀ c ∈ ([⟨"Check", "js-check", true, 0⟩] : List ComponentConfig),
        c.className ≠ "Missing")
    ∧ isElementUpgraded_ ⟨0, ["js-check"], none⟩ "Missing" = false
    ∧ upgradeElement [⟨"Check", "js-check", true, 0⟩] ⟨0, ["js-check"], none⟩
        (some "Missing") false =
      ⟨⟨0, ["js-check"], none⟩, [],
       [Effect.dispatch 0 "mdl-componentupgrading" true true],
       some "Unable to find a registered component for the given class."⟩ :=
  ⟨by decide, by decide, by decide,
   upgradeElement_unknown_name_raises _ _ _ (by decide) (by decide) (by decide)⟩

/-- C4, amended.  Calling `register` with a descriptor whose name equals an
already-registered descriptor's name raises a registration error rather than
replacing the prior descriptor in place or appending: the duplicate-name
`forEach` check throws before the replace-capable lookup can run. -/
theorem register_duplicate_name_raises (registry : List ComponentConfig)
    (config : ComponentConfigPublic) (item : ComponentConfig)
    (hmem : item ∈ registry) (hdup : item.className = config.classAsString) :
    ∃ msg, register registry config = .error msg := by
  rw [register_eq_def]
  obtain hfind | ⟨it, hfind⟩ := Option.eq_none_or_eq_some (registry.find? (fun it2 =>
      it2.cssClass == config.cssClass || it2.className == config.classAsString))
  · exfalso
    rw [List.find?_eq_none] at hfind
    have h2 := hfind item hmem
    simp [hdup] at h2
  · simp only [hfind]
    by_cases hcss : it.cssClass == config.cssClass
    · refine ⟨"The provided cssClass has already been registered: " ++ it.cssClass, ?_⟩
      rw [if_pos hcss]
    · refine ⟨"The provided className has already been registered", ?_⟩
      rw [if_neg hcss]

/-- C4, witness for the amended theorem. -/
theorem register_duplicate_name_raises_witness :
    (⟨"A", "css-a", true, 0⟩ : ComponentConfig) ∈
      ([⟨"A", "css-a", true, 0⟩] : List ComponentConfig)
    ∧ (⟨"A", "css-a", true, 0⟩ : ComponentConfig).className =
      (⟨"A", "css-a2", none, false⟩ : ComponentConfigPublic).classAsString
    ∧ ∃ msg, register [⟨"A", "css-a", true, 0⟩] ⟨"A", "css-a2", none, false⟩ =
        .error msg :=
  ⟨List.mem_cons_self _ _, rfl,
   register_duplicate_name_raises _ _ _ (List.mem_cons_self _ _) rfl⟩

/-- C9.  For a name not present in the registry, `upgradeDom(name)` with no
selector argument is a silent no-op (no error path exists in `upgradeDom`
itself and no `upgradeElement` call is made), provided no element of the
document carries the literal class `"undefined"` — the class that
`'.' + undefined` string concatenation would select. -/
theorem upgradeDom_unknown_name_noop (registry : List ComponentConfig)
    (doc : List Element) (name : String)
    (hreg : ∀ c ∈ registry, c.className ≠ name)
    (hdoc : ∀ el ∈ doc, "undefined" ∉ el.classList) :
    upgradeDom registry doc (some name) none = [] := by
  have hfind : findRegisteredClass_ registry name = none := by
    unfold findRegisteredClass_
    rw [List.find?_eq_none]
    intro c hc
    simpa using hreg c hc
  show upgradeDomOne registry doc (some name) none = []
  unfold upgradeDomOne
  simp only [Option.some_bind, hfind, Option.map_none', Option.getD_none]
  have hfilter : doc.filter (fun e => decide ("undefined" ∈ e.classList)) = [] := by
    rw [List.filter_eq_nil_iff]
    intro a ha
    simpa using hdoc a ha
  rw [hfilter]
  rfl

/-- C9, witness. -/
theorem upgradeDom_unknown_name_noop_witness :
    (∀ c ∈ ([⟨"Check", "js-check", true, 0⟩] : List ComponentConfig),
      c.className ≠ "Missing")
    ∧ (∀ el ∈ ([⟨0, ["js-check"], none⟩] : List Element), "undefined" ∉ el.classList)
    ∧ upgradeDom [⟨"Check", "js-check", true, 0⟩] [⟨0, ["js-check"], none⟩]
        (some "Missing") none = [] :=
  ⟨by decide, by decide, upgradeDom_unknown_name_noop _ _ _ (by decide) (by decide)⟩

/-- C7.  After registering three descriptors in the order A, B, C (each call
succeeding), `upgradeAllRegistered` performs its full-document `upgradeDom`
passes in strictly reverse registration order: the pass class names are
[C, B, A]. -/
theorem upgradeAllRegistered_reverse_order (A B C : ComponentConfigPublic)
    (doc : List Element) (r1 r2 r3 : List ComponentConfig)
    (h1 : register [] A = .ok r1) (h2 : register r1 B = .ok r2)
    (h3 : register r2 C = .ok r3) :
    (upgradeAllRegistered r3 doc).2.map Prod.fst =
      [C.classAsString, B.classAsString, A.classAsString] := by
  obtain ⟨-, hr1⟩ := register_ok_shape [] A r1 h1
  obtain ⟨-, hr2⟩ := register_ok_shape r1 B r2 h2
  obtain ⟨-, hr3⟩ := register_ok_shape r2 C r3 h3
  subst hr3
  subst hr2
  subst hr1
  simp [upgradeAllRegistered]

/-- C7, witness. -/
theorem upgradeAllRegistered_reverse_order_witness :
    register [] ⟨"A", "css-a", none, false⟩ = .ok [⟨"A", "css-a", true, 0⟩]
    ∧ register [⟨"A", "css-a", true, 0⟩] ⟨"B", "css-b", none, false⟩ =
        .ok [⟨"A", "css-a", true, 0⟩, ⟨"B", "css-b", true, 0⟩]
    ∧ register [⟨"A", "css-a", true, 0⟩, ⟨"B", "css-b", true, 0⟩]
        ⟨"C", "css-c", none, false⟩ =
        .ok [⟨"A", "css-a", true, 0⟩, ⟨"B", "css-b", true, 0⟩, ⟨"C", "css-c", true, 0⟩]
    ∧ (upgradeAllRegistered
        [⟨"A", "css-a", true, 0⟩, ⟨"B", "css-b", true, 0⟩, ⟨"C", "css-c", true, 0⟩]
        []).2.map Prod.fst = ["C", "B", "A"] :=
  ⟨rfl, rfl, rfl,
   upgradeAllRegistered_reverse_order ⟨"A", "css-a", none, false⟩
     ⟨"B", "css-b", none, false⟩ ⟨"C", "css-c", none, false⟩ [] _ _ _ rfl rfl rfl⟩

/-- C2.  Idempotence and reentrancy protection of `upgradeElement`, for a
well-formed registry (distinct class names, none containing the comma
delimiter) and an element whose marker list has no duplicates:
(1) one implicit-scan call applies each component type at most once;
(2)–(3) a second call in succession constructs nothing further and leaves the
element (marker attribute included) exactly as the first call left it;
(4) the marker list after the call still contains no duplicate name;
(5) the same holds after any explicitly-named upgrade call;
(6) in the effect trace, every constructor invocation is immediately preceded
by the marker-attribute write that records that very class name — the name is
marked applied before the factory runs, which is what forecloses reentrant
double-construction. -/
theorem upgradeElement_idempotent (registry : List ComponentConfig) (e : Element)
    (hreg : (registry.map ComponentConfig.className).Nodup)
    (hregc : ∀ c ∈ registry, ',' ∉ c.className.data)
    (he : (getUpgradedListOfElement_ e).Nodup) :
    ((upgradeElement registry e none false).created.map
        (fun comp => comp.config.className)).Nodup
    ∧ (upgradeElement registry (upgradeElement registry e none false).element
        none false).created = []
    ∧ (upgradeElement registry (upgradeElement registry e none false).element
        none false).element = (upgradeElement registry e none false).element
    ∧ (getUpgradedListOfElement_ (upgradeElement registry e none false).element).Nodup
    ∧ (∀ name : String,
        (getUpgradedListOfElement_
          (upgradeElement registry e (some name) false).element).Nodup)
    ∧ (∀ (i : Nat) (c : String),
        (upgradeElement registry e none false).effects[i]? =
            some (Effect.construct e.id c) →
        ∃ l2, (upgradeElement registry e none false).effects[i-1]? =
            some (Effect.setAttr e.id "data-upgraded" (jsJoin ',' (l2 ++ [c])))) := by
  have htwice := upgradeElement_scan_twice_empty registry e hregc
  refine ⟨?_, ?_, ?_, ?_, ?_, ?_⟩
  · simp only [upgradeElement_scan_eq, upgradeLoop_some_created, List.map_map]
    have hcomp : ((fun comp : Component => comp.config.className) ∘
        fun c => Component.mk e.id c) = ComponentConfig.className := rfl
    rw [hcomp]
    exact scanCandidates_names_nodup registry e hreg
  · simp only [upgradeElement_scan_eq] at htwice ⊢
    rw [htwice]
    simp only [List.map_nil]
    rfl
  · simp only [upgradeElement_scan_eq] at htwice ⊢
    rw [htwice]
    simp only [List.map_nil]
    rfl
  · exact upgradeElement_scan_nodup registry e hreg hregc he
  · intro name
    by_cases hname : name = ""
    · subst hname
      rw [upgradeElement_empty_name_eq]
      exact upgradeElement_scan_nodup registry e hreg hregc he
    · rw [upgradeElement_named_spec registry e name hname]
      cases hupg : isElementUpgraded_ e name with
      | true =>
        simp only [hupg, if_true]
        simpa [upgradeLoop] using he
      | false =>
        cases hfind : findRegisteredClass_ registry name with
        | none =>
          simp only [hupg, Bool.false_eq_true, if_false, hfind]
          simpa [upgradeLoop] using he
        | some c =>
          have hcm : c ∈ registry := List.mem_of_find?_eq_some hfind
          have hcn : c.className = name := by
            have h2 := List.find?_some hfind
            simpa using h2
          simp only [hupg, Bool.false_eq_true, if_false, hfind]
          have helem : (upgradeLoop e (getUpgradedListOfElement_ e) [some c]).element
              = { e with dataUpgraded := some (jsJoin ','
                  (getUpgradedListOfElement_ e ++ [c.className])) } := by
            have h3 := upgradeLoop_some_element [c] e (getUpgradedListOfElement_ e)
            simpa using h3
          rw [helem]
          have hdec : getUpgradedListOfElement_ { e with dataUpgraded := some (jsJoin ','
              (getUpgradedListOfElement_ e ++ [c.className])) } =
              jsSplit ',' (jsJoin ','
                (getUpgradedListOfElement_ e ++ [c.className])) := rfl
          rw [hdec]
          rw [jsSplit_jsJoin]
          · refine List.Nodup.append he (by simp) ?_
            intro a ha hn
            simp only [List.mem_singleton] at hn
            subst hn
            have h4 : isElementUpgraded_ e c.className = true :=
              (isElementUpgraded_iff e c.className).mpr ha
            rw [hcn] at h4
            rw [h4] at hupg
            exact Bool.noConfusion hupg
          · intro hcon
            exact getUpgradedListOfElement_ne_nil e (List.append_eq_nil.mp hcon).1
          · intro s hs
            rcases List.mem_append.mp hs with h1 | h1
            · exact getUpgradedListOfElement_no_comma e s h1
            · simp only [List.mem_singleton] at h1
              subst h1
              exact hregc c hcm
  · intro i c h
    simp only [upgradeElement_scan_eq] at h ⊢
    cases i with
    | zero => simp at h
    | succ j =>
      rw [List.getElem?_cons_succ] at h
      cases j with
      | zero =>
        rcases upgradeLoop_some_effects_shape (scanCandidates registry e) e
            (getUpgradedListOfElement_ e) with hsh | ⟨v, r2, hsh⟩
        · rw [hsh] at h
          simp at h
        · rw [hsh] at h
          simp at h
      | succ k =>
        obtain ⟨l2, hl2⟩ := upgradeLoop_construct_preceded (scanCandidates registry e) e
          (getUpgradedListOfElement_ e) (k + 1) c h
        refine ⟨l2, ?_⟩
        rw [show k + 1 + 1 - 1 = k + 1 from rfl, List.getElem?_cons_succ]
        exact hl2

/-- C2, witness. -/
theorem upgradeElement_idempotent_witness :
    (([⟨"Check", "js-check", true, 0⟩] : List ComponentConfig).map
        ComponentConfig.className).Nodup
    ∧ (∀ c ∈ ([⟨"Check", "js-check", true, 0⟩] : List ComponentConfig),
        ',' ∉ c.className.data)
    ∧ (getUpgradedListOfElement_ ⟨0, ["js-check"], none⟩).Nodup
    ∧ (upgradeElement [⟨"Check", "js-check", true, 0⟩]
        (upgradeElement [⟨"Check", "js-check", true, 0⟩] ⟨0, ["js-check"], none⟩
          none false).element none false).created = [] :=
  ⟨by decide, by decide, by decide,
   (upgradeElement_idempotent [⟨"Check", "js-check", true, 0⟩] ⟨0, ["js-check"], none⟩
     (by decide) (by decide) (by decide)).2.1⟩

end MDL
